import Mathlib

/-!
Verification of the commit-analytics core of the `claude-plugins` repository
(plugin `tribal-knowledge-extractor`).  The JavaScript source is shallowly
embedded: each JS function that the verified claims mention is translated to a
Lean definition over explicit inputs.  The git subprocess boundary is modelled
by taking the already-parsed record stream as the function argument, and the
result of `new Date(dateString).getHours()` is carried on each record as an
`Option Nat` (`none` models `NaN`, the result of an unparseable date string,
for which every numeric comparison in JS is false).
-/

set_option maxHeartbeats 1000000

namespace TribalKnowledge

/-! ### JS string primitives

JS strings are sequences of characters; the string operations the analytics
code uses are modelled structurally over `String.data` (the character list) so
that they are fully executable.  `jsStartsWith` models
`String.prototype.startsWith`, `jsToLower` models `toLowerCase` (ASCII; the
commit-log subjects the code classifies are ASCII-prefixed), `wsTokens` models
splitting on runs of whitespace (`split(/\s+/)` up to the empty-string
artifacts that the length filters below discard), and `normalizeWs` models
`replace(/\s+/g, ' ').trim()`. -/

def jsStartsWith (s pre : String) : Bool := pre.data.isPrefixOf s.data

/-- Lexicographic order on character lists: the JS `<` comparison of two
strings (UTF-16 code-unit order, which agrees with character order for the
ASCII date keys compared here). -/
def charListLt : List Char → List Char → Bool
  | [], [] => false
  | [], _ :: _ => true
  | _ :: _, [] => false
  | a :: as, b :: bs => if a < b then true else if b < a then false else charListLt as bs

def jsStrLt (a b : String) : Bool := charListLt a.data b.data

def jsToLower (s : String) : String := String.mk (s.data.map Char.toLower)

def wordsAux : List Char → List Char → List String
  | [], cur => if cur.isEmpty then [] else [String.mk cur.reverse]
  | ch :: rest, cur =>
    if ch.isWhitespace then
      if cur.isEmpty then wordsAux rest [] else String.mk cur.reverse :: wordsAux rest []
    else wordsAux rest (ch :: cur)

def wsTokens (s : String) : List String := wordsAux s.data []

def normalizeWs (s : String) : String := String.intercalate " " (wsTokens s)

/-- The seven commit categories of `stats.patterns` in
`plugins/tribal-knowledge-extractor/index.js`. -/
inductive Category where
  | fix | feat | refactor | docs | test | chore | other
  deriving DecidableEq, Repr

/-- Commit-subject classification, the `if`/`else if` chain of
`index.js` lines 114-120 (the identical chain also appears in
`author-patterns.js` (`getAuthorStats`) lines 64-70): each category token is
matched as an exact prefix in its all-lowercase and initial-capital spellings,
first match wins, no match falls through to `other`. -/
def fixMatch (s : String) : Bool := jsStartsWith s "fix:" || jsStartsWith s "Fix:"
def featMatch (s : String) : Bool := jsStartsWith s "feat:" || jsStartsWith s "Feat:"
def refactorMatch (s : String) : Bool := jsStartsWith s "refactor:" || jsStartsWith s "Refactor:"
def docsMatch (s : String) : Bool := jsStartsWith s "docs:" || jsStartsWith s "Docs:"
def testMatch (s : String) : Bool := jsStartsWith s "test:" || jsStartsWith s "Test:"
def choreMatch (s : String) : Bool := jsStartsWith s "chore:" || jsStartsWith s "Chore:"

def categoryOf (subject : String) : Category :=
  if fixMatch subject then .fix
  else if featMatch subject then .feat
  else if refactorMatch subject then .refactor
  else if docsMatch subject then .docs
  else if testMatch subject then .test
  else if choreMatch subject then .chore
  else .other

/-- The category histogram `stats.patterns` of `getCommitStats`. -/
structure Patterns where
  fix : Nat
  feat : Nat
  refactor : Nat
  docs : Nat
  test : Nat
  chore : Nat
  other : Nat
  deriving DecidableEq, Repr

def zeroPatterns : Patterns := ⟨0, 0, 0, 0, 0, 0, 0⟩

/-- One step of the pattern-counting chain of `index.js` lines 114-120,
factored through `categoryOf`. -/
def bumpPattern (p : Patterns) (subject : String) : Patterns :=
  match categoryOf subject with
  | .fix => { p with fix := p.fix + 1 }
  | .feat => { p with feat := p.feat + 1 }
  | .refactor => { p with refactor := p.refactor + 1 }
  | .docs => { p with docs := p.docs + 1 }
  | .test => { p with test := p.test + 1 }
  | .chore => { p with chore := p.chore + 1 }
  | .other => { p with other := p.other + 1 }

def patternsSum (p : Patterns) : Nat :=
  p.fix + p.feat + p.refactor + p.docs + p.test + p.chore + p.other

/-- The four time-of-day buckets of `stats.timeDistribution`. -/
inductive Period where
  | morning | afternoon | evening | night
  deriving DecidableEq, Repr

/-- Time-of-day bucketing of `index.js` lines 122-125 (same chain in
`analyzeWorkingHours`, `author-patterns.js` lines 157-164).  The hour is the
result of `new Date(date).getHours()`; `none` models `NaN` (unparseable date),
for which each of the JS comparisons is false, so control falls through to the
`night` branch. -/
def periodOf : Option Nat → Period
  | none => .night
  | some h =>
    if 6 ≤ h ∧ h < 12 then .morning
    else if 12 ≤ h ∧ h < 17 then .afternoon
    else if 17 ≤ h ∧ h < 21 then .evening
    else .night

/-- The `stats.timeDistribution` histogram. -/
structure TimeDist where
  morning : Nat
  afternoon : Nat
  evening : Nat
  night : Nat
  deriving DecidableEq, Repr

def zeroTimeDist : TimeDist := ⟨0, 0, 0, 0⟩

def bumpTime (t : TimeDist) : Period → TimeDist
  | .morning => { t with morning := t.morning + 1 }
  | .afternoon => { t with afternoon := t.afternoon + 1 }
  | .evening => { t with evening := t.evening + 1 }
  | .night => { t with night := t.night + 1 }

def timeSum (t : TimeDist) : Nat :=
  t.morning + t.afternoon + t.evening + t.night

/-- One parsed commit record of `getCommitStats`
(`parseGitLog(commits, ['hash','author','email','date','subject'])`).
`hour` carries the value of `new Date(date).getHours()` for the record
(`none` = `NaN` from an unparseable date string). -/
structure CommitRec where
  hash : String
  author : String
  email : String
  date : String
  hour : Option Nat
  subject : String
  deriving DecidableEq, Repr

/-- The per-author accumulator of `stats.authors` in `getCommitStats`:
`{ email, commits }`. -/
structure AuthorEntry where
  email : String
  commits : Nat
  deriving DecidableEq, Repr

/-- The mutable accumulator of the `forEach` loop of `getCommitStats`
(`index.js` lines 103-126): the pushed commit list, the insertion-ordered
author map, the category histogram and the time-of-day histogram. -/
structure StatsAcc where
  commits : List CommitRec
  authors : List (String × AuthorEntry)
  patterns : Patterns
  timeDistribution : TimeDist

def initAcc : StatsAcc := ⟨[], [], zeroPatterns, zeroTimeDist⟩

/-- One iteration of the `forEach` body of `getCommitStats`: push the commit,
create the author entry on first sight (insertion order preserved, so the
model is an association list), bump the author's count, classify the subject,
bucket the hour. -/
def stepStats (s : StatsAcc) (c : CommitRec) : StatsAcc :=
  let authors0 :=
    if s.authors.any (fun p => p.1 = c.author) then s.authors
    else s.authors ++ [(c.author, { email := c.email, commits := 0 })]
  let authors1 := authors0.map (fun p =>
    if p.1 = c.author then (p.1, { p.2 with commits := p.2.commits + 1 }) else p)
  { commits := s.commits ++ [c]
    authors := authors1
    patterns := bumpPattern s.patterns c.subject
    timeDistribution := bumpTime s.timeDistribution (periodOf c.hour) }

/-- `const MAX_COMMITS = 1000` (`index.js` line 66). -/
def MAX_COMMITS : Nat := 1000

/-- The value returned by `getCommitStats` (`index.js` lines 74-129). -/
structure Stats where
  commits : List CommitRec
  total : Nat
  authors : List (String × AuthorEntry)
  patterns : Patterns
  timeDistribution : TimeDist

/-- `getCommitStats` over an already-parsed commit list:
`total` is the full parsed length (`commitList.length`), while the `forEach`
aggregation runs over `commitList.slice(0, MAX_COMMITS)` only. -/
def getCommitStats (commitList : List CommitRec) : Stats :=
  { commits := ((commitList.take MAX_COMMITS).foldl stepStats initAcc).commits
    total := commitList.length
    authors := ((commitList.take MAX_COMMITS).foldl stepStats initAcc).authors
    patterns := ((commitList.take MAX_COMMITS).foldl stepStats initAcc).patterns
    timeDistribution :=
      ((commitList.take MAX_COMMITS).foldl stepStats initAcc).timeDistribution }

/-! ### Counting invariants of the aggregation fold -/

theorem patternsSum_bumpPattern (p : Patterns) (s : String) :
    patternsSum (bumpPattern p s) = patternsSum p + 1 := by
  unfold bumpPattern
  cases categoryOf s <;> simp [patternsSum] <;> omega

theorem timeSum_bumpTime (t : TimeDist) (pd : Period) :
    timeSum (bumpTime t pd) = timeSum t + 1 := by
  cases pd <;> simp [bumpTime, timeSum] <;> omega

theorem patternsSum_foldl (l : List CommitRec) (a : StatsAcc) :
    patternsSum ((l.foldl stepStats a).patterns) = patternsSum a.patterns + l.length := by
  induction l generalizing a with
  | nil => simp
  | cons c tl ih =>
    rw [List.foldl_cons, ih]
    have : (stepStats a c).patterns = bumpPattern a.patterns c.subject := rfl
    rw [this, patternsSum_bumpPattern]
    simp
    omega

theorem timeSum_foldl (l : List CommitRec) (a : StatsAcc) :
    timeSum ((l.foldl stepStats a).timeDistribution) = timeSum a.timeDistribution + l.length := by
  induction l generalizing a with
  | nil => simp
  | cons c tl ih =>
    rw [List.foldl_cons, ih]
    have : (stepStats a c).timeDistribution =
        bumpTime a.timeDistribution (periodOf c.hour) := rfl
    rw [this, timeSum_bumpTime]
    simp
    omega

/-! ### Claim C1 -/

/-- C1 (amended): for every commit stream of at most `MAX_COMMITS` (1000)
records, the sum of the seven category-histogram counters of `getCommitStats`
equals the reported total commit count.  (For longer streams the histogram only
covers the first 1000 records while `total` is the full count, see the
counterexample.) -/
theorem category_sum_eq_total_of_le_max (l : List CommitRec)
    (h : l.length ≤ MAX_COMMITS) :
    patternsSum (getCommitStats l).patterns = (getCommitStats l).total := by
  show patternsSum ((l.take MAX_COMMITS).foldl stepStats initAcc).patterns = l.length
  rw [patternsSum_foldl]
  simp [initAcc, zeroPatterns, patternsSum, List.length_take]
  omega

def demoCommits : List CommitRec :=
  [ { hash := "h1", author := "alice", email := "a@x", date := "d1",
      hour := some 10, subject := "fix: a" }
  , { hash := "h2", author := "bob", email := "b@x", date := "d2",
      hour := some 14, subject := "feat: b" }
  , { hash := "h3", author := "alice", email := "a@x", date := "d3",
      hour := some 22, subject := "fix: c" } ]

/-- Witness for C1 at the spec's scenario 1 stream. -/
theorem category_sum_eq_total_witness :
    patternsSum (getCommitStats demoCommits).patterns = (getCommitStats demoCommits).total :=
  category_sum_eq_total_of_le_max demoCommits (by decide)

def padCommit : CommitRec :=
  { hash := "h", author := "alice", email := "a@x", date := "d",
    hour := some 10, subject := "fix: a" }

/-- C1 counterexample: on a stream of 1001 commits the seven category counters
sum to 1000 (only the first `MAX_COMMITS` records are folded) while the
reported total is 1001, so the claimed invariant fails. -/
theorem category_sum_breaks_at_1001 :
    patternsSum (getCommitStats (List.replicate 1001 padCommit)).patterns ≠
      (getCommitStats (List.replicate 1001 padCommit)).total := by
  have htake : (List.replicate 1001 padCommit).take MAX_COMMITS =
      List.replicate 1000 padCommit := by
    rw [List.take_replicate]
    rfl
  have h1 : patternsSum (getCommitStats (List.replicate 1001 padCommit)).patterns = 1000 := by
    simp only [getCommitStats]
    rw [htake, patternsSum_foldl, List.length_replicate]
    norm_num [initAcc, zeroPatterns, patternsSum]
  have h2 : (getCommitStats (List.replicate 1001 padCommit)).total = 1001 := by
    simp only [getCommitStats]
    rw [List.length_replicate]
  rw [h1, h2]
  decide

/-! ### Claim C3 -/

/-- C3 counterexample: the subject `"FIX: a"` is a case-insensitive match of
the prefix `fix:`, so the claim classifies it as `fix`, but the code only
tests the spellings `fix:` and `Fix:` and classifies it as `other`. -/
theorem uppercase_prefix_not_matched :
    categoryOf "FIX: a" = Category.other ∧ Category.other ≠ Category.fix := by
  constructor
  · decide
  · decide

/-- C3 (amended): category assignment is a pure function of the subject, but
the prefix match is not case-insensitive: for each token only the exact
spellings `<token>:` and `<Token>:` (first letter capitalised) are matched;
the chain is tried in the order fix, feat, refactor, docs, test, chore with
the first match winning, and a subject matching no spelling is `other`. -/
theorem categoryOf_characterization (s : String) :
    (categoryOf s = Category.fix ↔ fixMatch s = true)
  ∧ (categoryOf s = Category.feat ↔ (featMatch s = true ∧ fixMatch s = false))
  ∧ (categoryOf s = Category.refactor ↔
      (refactorMatch s = true ∧ fixMatch s = false ∧ featMatch s = false))
  ∧ (categoryOf s = Category.docs ↔
      (docsMatch s = true ∧ fixMatch s = false ∧ featMatch s = false
        ∧ refactorMatch s = false))
  ∧ (categoryOf s = Category.test ↔
      (testMatch s = true ∧ fixMatch s = false ∧ featMatch s = false
        ∧ refactorMatch s = false ∧ docsMatch s = false))
  ∧ (categoryOf s = Category.chore ↔
      (choreMatch s = true ∧ fixMatch s = false ∧ featMatch s = false
        ∧ refactorMatch s = false ∧ docsMatch s = false ∧ testMatch s = false))
  ∧ (categoryOf s = Category.other ↔
      (fixMatch s = false ∧ featMatch s = false ∧ refactorMatch s = false
        ∧ docsMatch s = false ∧ testMatch s = false ∧ choreMatch s = false)) := by
  unfold categoryOf
  split_ifs <;> simp_all

/-- Witness for C3: the characterization applied to the subject `"feat: b"`. -/
theorem categoryOf_characterization_witness : categoryOf "feat: b" = Category.feat :=
  ((categoryOf_characterization "feat: b").2.1).mpr (by decide)

/-! ### Claim C4 -/

/-- C4 (confirmed): time-of-day bucketing maps hour `h` to morning iff
`6 ≤ h < 12`, afternoon iff `12 ≤ h < 17`, evening iff `17 ≤ h < 21` and night
otherwise; an unparseable timestamp (hour `none`, i.e. `NaN`) is placed in the
night bucket; and every folded record lands in exactly one bucket while the
reported total counts the whole stream, so no record is dropped. -/
theorem time_bucketing_spec :
    (∀ h : Nat,
      (periodOf (some h) = Period.morning ↔ (6 ≤ h ∧ h < 12))
      ∧ (periodOf (some h) = Period.afternoon ↔ (12 ≤ h ∧ h < 17))
      ∧ (periodOf (some h) = Period.evening ↔ (17 ≤ h ∧ h < 21))
      ∧ (periodOf (some h) = Period.night ↔ (h < 6 ∨ 21 ≤ h)))
  ∧ periodOf none = Period.night
  ∧ (∀ l : List CommitRec,
      timeSum (getCommitStats l).timeDistribution = (l.take MAX_COMMITS).length
      ∧ (getCommitStats l).total = l.length) := by
  refine ⟨fun h => ?_, rfl, fun l => ⟨?_, rfl⟩⟩
  · simp only [periodOf]
    split_ifs <;> simp_all <;> omega
  · show timeSum ((l.take MAX_COMMITS).foldl stepStats initAcc).timeDistribution
      = (l.take MAX_COMMITS).length
    rw [timeSum_foldl]
    simp [initAcc, zeroTimeDist, timeSum]

/-- Witness for C4: hour 22 is night, hour 7 is morning, and an unparseable
timestamp goes to night. -/
theorem time_bucketing_spec_witness :
    periodOf (some 22) = Period.night ∧ periodOf (some 7) = Period.morning
      ∧ periodOf none = Period.night := by
  refine ⟨(time_bucketing_spec.1 22).2.2.2.mpr (by decide),
          (time_bucketing_spec.1 7).1.mpr (by decide),
          time_bucketing_spec.2.1⟩

/-! ### Claim C10 -/

/-- C10 (confirmed): `getCommitStats` folds at most the first `MAX_COMMITS`
(1000) records into the commit list, author map, category histogram and
time-of-day histogram — each aggregate of the full stream equals the aggregate
of the first-1000 prefix — while the reported `total` is the full parsed
count. -/
theorem aggregates_cover_first_1000 (l : List CommitRec) :
    (getCommitStats l).total = l.length
  ∧ (getCommitStats l).authors = (getCommitStats (l.take MAX_COMMITS)).authors
  ∧ (getCommitStats l).patterns = (getCommitStats (l.take MAX_COMMITS)).patterns
  ∧ (getCommitStats l).timeDistribution
      = (getCommitStats (l.take MAX_COMMITS)).timeDistribution
  ∧ (getCommitStats l).commits = (getCommitStats (l.take MAX_COMMITS)).commits := by
  unfold getCommitStats
  simp [List.take_take]

/-- Witness for C10 at a concrete stream. -/
theorem aggregates_cover_first_1000_witness :
    (getCommitStats demoCommits).total = demoCommits.length :=
  (aggregates_cover_first_1000 demoCommits).1

/-! ## `commit-timeline.js`: day buckets and velocity

`getCommitsByDay` produces a map from `YYYY-MM-DD` date keys to
`{ commits, authors, subjects }` objects; `calculateVelocity` takes that map.
`Object.entries(data).sort()` is modelled by an insertion sort on the date
key (the JS default comparator stringifies each `[key, info]` pair as
`key + ",[object Object]"`, so for the fixed-width date keys it orders by the
key string). -/

/-- One value of the `getCommitsByDay` map: commit count, distinct author
count, and up to five sample subjects. -/
structure DayInfo where
  commits : Nat
  authors : Nat
  subjects : List String
  deriving DecidableEq, Repr

def insertEntry (x : String × DayInfo) : List (String × DayInfo) → List (String × DayInfo)
  | [] => [x]
  | y :: ys => if jsStrLt x.1 y.1 then x :: y :: ys else y :: insertEntry x ys

/-- `Object.entries(data).sort()`: the bucket list ordered by date key. -/
def sortEntries : List (String × DayInfo) → List (String × DayInfo)
  | [] => []
  | x :: xs => insertEntry x (sortEntries xs)

/-- The bucket list already has strictly ascending date keys (the ordered
day-bucket list of the spec). -/
def keysSorted : List (String × DayInfo) → Bool
  | [] => true
  | [_] => true
  | a :: b :: rest => if jsStrLt a.1 b.1 then keysSorted (b :: rest) else false

theorem insertEntry_length (x : String × DayInfo) (l : List (String × DayInfo)) :
    (insertEntry x l).length = l.length + 1 := by
  induction l with
  | nil => rfl
  | cons y ys ih =>
    simp only [insertEntry]
    split <;> simp [ih]

theorem sortEntries_length (l : List (String × DayInfo)) :
    (sortEntries l).length = l.length := by
  induction l with
  | nil => rfl
  | cons x xs ih => simp [sortEntries, insertEntry_length, ih]

theorem keysSorted_tail {a : String × DayInfo} {l : List (String × DayInfo)}
    (h : keysSorted (a :: l) = true) : keysSorted l = true := by
  cases l with
  | nil => rfl
  | cons b rest =>
    simp only [keysSorted] at h
    split at h
    · exact h
    · exact absurd h (by simp)

theorem sortEntries_of_sorted (l : List (String × DayInfo))
    (h : keysSorted l = true) : sortEntries l = l := by
  induction l with
  | nil => rfl
  | cons x xs ih =>
    have hxs : sortEntries xs = xs := ih (keysSorted_tail h)
    simp only [sortEntries, hxs]
    cases xs with
    | nil => rfl
    | cons y ys =>
      simp only [keysSorted] at h
      split at h
      · simp only [insertEntry]
        split
        · rfl
        · simp_all
      · exact absurd h (by simp)

/-- The `trend` values of `calculateVelocity` (rendered in the source with
trailing emoji). -/
inductive Trend where
  | increasing | decreasing | stable
  deriving DecidableEq, Repr

/-- The value of `calculateVelocity`.  In the source `avgDaily` is the string
produced by `toFixed(1)`; it is modelled as the one-decimal rational it
renders.  `percentChange` is `none` when the early `entries.length < 2`
return leaves the property absent (`undefined`). -/
structure Velocity where
  avgDaily : ℚ
  trend : Trend
  percentChange : Option ℚ
  deriving DecidableEq, Repr

/-- `Number.prototype.toFixed(1)` on a non-negative value: round to the
nearest tenth, ties away from zero. -/
def toFixed1 (q : ℚ) : ℚ := ((Int.floor (q * 10 + 1/2) : Int) : ℚ) / 10

/-- The `forEach` commit-count accumulations of `calculateVelocity`. -/
def sumCommits (entries : List (String × DayInfo)) : Nat :=
  entries.foldl (fun acc e => acc + e.2.commits) 0

/-- `calculateVelocity` (`commit-timeline.js` lines 283-308). -/
def calculateVelocity (data : List (String × DayInfo)) : Velocity :=
  let entries := sortEntries data
  if entries.length < 2 then { avgDaily := 0, trend := .stable, percentChange := none }
  else
    let totalCommits := sumCommits entries
    let midPoint := entries.length / 2
    let prevPeriodCommits := sumCommits (entries.take midPoint)
    let currPeriodCommits := sumCommits (entries.drop midPoint)
    let avgDaily := toFixed1 ((totalCommits : ℚ) / (entries.length : ℚ))
    let percentChange : ℚ :=
      if 0 < prevPeriodCommits then
        (((currPeriodCommits : ℚ) - (prevPeriodCommits : ℚ)) / (prevPeriodCommits : ℚ)) * 100
      else 0
    let trend : Trend :=
      if 20 < percentChange then .increasing
      else if percentChange < -20 then .decreasing
      else .stable
    { avgDaily := avgDaily, trend := trend, percentChange := some percentChange }

/-! ### Claim C5 -/

/-- C5 (confirmed): on an ordered day-bucket list with at least two buckets,
`calculateVelocity` splits the list at its floor-division midpoint,
reports `percentChange = (currentSum − previousSum) / previousSum × 100` when
the previous-half sum is positive and `0` otherwise, and classifies the trend
as increasing iff the change exceeds 20, decreasing iff it is below −20, and
stable otherwise. -/
theorem velocity_split_half (data : List (String × DayInfo))
    (hs : keysSorted data = true) (hl : 2 ≤ data.length) :
    (calculateVelocity data).percentChange =
      some (if 0 < sumCommits (data.take (data.length / 2)) then
        (((sumCommits (data.drop (data.length / 2)) : ℚ)
            - (sumCommits (data.take (data.length / 2)) : ℚ))
          / (sumCommits (data.take (data.length / 2)) : ℚ)) * 100
      else 0)
  ∧ ((calculateVelocity data).trend = Trend.increasing ↔
      20 < (calculateVelocity data).percentChange.getD 0)
  ∧ ((calculateVelocity data).trend = Trend.decreasing ↔
      (calculateVelocity data).percentChange.getD 0 < -20)
  ∧ ((calculateVelocity data).trend = Trend.stable ↔
      (¬ 20 < (calculateVelocity data).percentChange.getD 0
        ∧ ¬ (calculateVelocity data).percentChange.getD 0 < -20)) := by
  have hid : sortEntries data = data := sortEntries_of_sorted data hs
  simp only [calculateVelocity, hid]
  rw [if_neg (by omega : ¬ data.length < 2)]
  refine ⟨rfl, ?_, ?_, ?_⟩ <;>
    · simp only [Option.getD_some]
      split_ifs <;> simp_all <;> linarith

def twoBuckets : List (String × DayInfo) :=
  [("2024-01-01", ⟨10, 1, []⟩), ("2024-01-02", ⟨15, 1, []⟩)]

/-- Witness for C5 at the spec's scenario 4: previous-half sum 10,
current-half sum 15 gives percentChange 50 and an increasing trend. -/
theorem velocity_split_half_witness :
    (calculateVelocity twoBuckets).percentChange = some 50
  ∧ (calculateVelocity twoBuckets).trend = Trend.increasing := by
  have h := velocity_split_half twoBuckets (by decide) (by decide)
  have hpc : (calculateVelocity twoBuckets).percentChange = some 50 := by
    rw [h.1]
    norm_num [twoBuckets, sumCommits]
  refine ⟨hpc, h.2.1.mpr ?_⟩
  rw [hpc]
  norm_num

/-! ### Claim C6 -/

def oneBucket : List (String × DayInfo) := [("2024-01-01", ⟨5, 1, []⟩)]

/-- C6 counterexample: for the single-bucket list with 5 commits the claim
demands `averageDailyCommits = 5/1 = 5`, but `calculateVelocity` takes the
`entries.length < 2` early return and reports `avgDaily = 0`. -/
theorem avg_daily_zero_for_single_bucket :
    (calculateVelocity oneBucket).avgDaily = 0
  ∧ ((sumCommits oneBucket : ℚ) / (oneBucket.length : ℚ) = 5)
  ∧ (0 : ℚ) ≠ 5 := by
  refine ⟨rfl, by norm_num [oneBucket, sumCommits], by norm_num⟩

/-- C6 (amended): on an ordered day-bucket list with at least two buckets,
`averageDailyCommits` is `totalCommits / numberOfBucketsObserved` rounded to
one decimal (`toFixed(1)`); for lists of fewer than two buckets the early
return reports 0 instead. -/
theorem velocity_avg_daily (data : List (String × DayInfo))
    (hs : keysSorted data = true) (hl : 2 ≤ data.length) :
    (calculateVelocity data).avgDaily =
      toFixed1 ((sumCommits data : ℚ) / (data.length : ℚ)) := by
  have hid : sortEntries data = data := sortEntries_of_sorted data hs
  simp only [calculateVelocity, hid]
  rw [if_neg (by omega : ¬ data.length < 2)]

/-- Witness for C6: two buckets totalling 25 commits average 12.5 commits per
active day. -/
theorem velocity_avg_daily_witness :
    (calculateVelocity twoBuckets).avgDaily = 25/2 := by
  rw [velocity_avg_daily twoBuckets (by decide) (by decide)]
  norm_num [twoBuckets, sumCommits, toFixed1]

/-! ### Claim C7 -/

/-- C7 counterexample: for a day-bucket list of length 1 the result's
`percentChange` is absent (`undefined`, modelled `none`), not the value 0 the
claim states. -/
theorem percent_change_absent_short_list :
    (calculateVelocity oneBucket).percentChange = none
  ∧ (calculateVelocity oneBucket).trend = Trend.stable
  ∧ (none : Option ℚ) ≠ some 0 := by
  refine ⟨rfl, rfl, by simp⟩

/-- C7 (amended): a day-bucket list of length 0 or 1 takes the
`entries.length < 2` early return: trend is stable, `avgDaily` is 0 and
`percentChange` is absent (`undefined`, modelled as `none`, not the value 0);
the guarded division is never evaluated. -/
theorem velocity_short_list (data : List (String × DayInfo))
    (h : data.length ≤ 1) :
    calculateVelocity data =
      { avgDaily := 0, trend := Trend.stable, percentChange := none } := by
  have hlen : (sortEntries data).length = data.length := sortEntries_length data
  have hlt : (sortEntries data).length < 2 := by omega
  simp only [calculateVelocity]
  rw [if_pos hlt]

/-- Witness for C7 at the empty bucket list. -/
theorem velocity_short_list_witness :
    calculateVelocity [] =
      { avgDaily := 0, trend := Trend.stable, percentChange := none } :=
  velocity_short_list [] (by decide)

/-! ## Insertion-ordered counting maps and stable descending sort

`Map.set(key, (map.get(key) || 0) + 1)` on a JS `Map` updates the entry in
place when the key is present and appends a fresh entry otherwise; `bumpCount`
is that operation on the entry list.  `sortDescBy` is a stable sort descending
by a numeric field, the behaviour of `Array.prototype.sort` with the
comparator `(a, b) => b.count - a.count` (JS sort is stable). -/

def bumpCount : List (String × Nat) → String → List (String × Nat)
  | [], k => [(k, 1)]
  | p :: rest, k =>
    if p.1 = k then (p.1, p.2 + 1) :: rest else p :: bumpCount rest k

def hasKey (m : List (String × Nat)) (k : String) : Bool :=
  m.any (fun p => p.1 = k)

def lookupCount (m : List (String × Nat)) (k : String) : Nat :=
  match m.find? (fun p => p.1 = k) with
  | some p => p.2
  | none => 0

theorem lookupCount_bump_self (m : List (String × Nat)) (k : String) :
    lookupCount (bumpCount m k) k = lookupCount m k + 1 := by
  induction m with
  | nil => simp [bumpCount, lookupCount, List.find?]
  | cons p rest ih =>
    by_cases hp : p.1 = k
    · simp [bumpCount, hp, lookupCount, List.find?]
    · simp only [bumpCount, if_neg hp]
      simpa [lookupCount, List.find?, hp] using ih

theorem lookupCount_bump_other (m : List (String × Nat)) {k k' : String}
    (hkk : k' ≠ k) : lookupCount (bumpCount m k) k' = lookupCount m k' := by
  induction m with
  | nil => simp [bumpCount, lookupCount, List.find?, Ne.symm hkk]
  | cons p rest ih =>
    by_cases hp : p.1 = k
    · have hp' : p.1 ≠ k' := by rw [hp]; exact Ne.symm hkk
      simp [bumpCount, hp, lookupCount, List.find?, hp', Ne.symm hkk]
    · simp only [bumpCount, if_neg hp]
      by_cases hq : p.1 = k'
      · simp [lookupCount, List.find?, hq]
      · simpa [lookupCount, List.find?, hq] using ih

theorem keys_bumpCount (m : List (String × Nat)) (k : String) :
    (bumpCount m k).map Prod.fst =
      if hasKey m k then m.map Prod.fst else m.map Prod.fst ++ [k] := by
  induction m with
  | nil => simp [bumpCount, hasKey]
  | cons p rest ih =>
    by_cases hp : p.1 = k
    · simp [bumpCount, hp, hasKey]
    · simp only [bumpCount, if_neg hp, List.map_cons, ih, hasKey, List.any_cons]
      by_cases hr : hasKey rest k
      · simp [hasKey] at hr
        simp [hp, hr]
      · simp [hasKey] at hr
        simp [hp, hr]

theorem not_mem_keys_of_not_hasKey {m : List (String × Nat)} {k : String}
    (h : hasKey m k = false) : k ∉ m.map Prod.fst := by
  simp only [hasKey, List.any_eq_false, decide_eq_true_eq] at h
  intro hk
  rw [List.mem_map] at hk
  obtain ⟨p, hp, hpk⟩ := hk
  exact h p hp hpk

theorem nodup_keys_bumpCount {m : List (String × Nat)} (k : String)
    (hnd : (m.map Prod.fst).Nodup) : ((bumpCount m k).map Prod.fst).Nodup := by
  rw [keys_bumpCount]
  by_cases h : hasKey m k
  · simpa [h] using hnd
  · simp only [h, if_false, Bool.false_eq_true]
    rw [List.nodup_append]
    refine ⟨hnd, by simp, by simp [not_mem_keys_of_not_hasKey (by simpa using h)]⟩

theorem mem_entry_eq_lookup {m : List (String × Nat)}
    (hnd : (m.map Prod.fst).Nodup) {p : String × Nat} (hp : p ∈ m) :
    p.2 = lookupCount m p.1 := by
  induction m with
  | nil => simp at hp
  | cons q rest ih =>
    rcases List.mem_cons.mp hp with rfl | hp'
    · simp [lookupCount, List.find?]
    · have hq : q.1 ≠ p.1 := by
        intro hcontra
        have : p.1 ∈ rest.map Prod.fst := List.mem_map_of_mem Prod.fst hp'
        rw [List.map_cons, List.nodup_cons] at hnd
        exact hnd.1 (hcontra ▸ this)
      have := ih (by rw [List.map_cons, List.nodup_cons] at hnd; exact hnd.2) hp'
      simpa [lookupCount, List.find?, hq] using this

/-- `countFold` is the insertion-ordered frequency map of a key stream. -/
def countFold (ks : List String) : List (String × Nat) :=
  ks.foldl bumpCount []

theorem lookupCount_foldl (ks : List String) :
    ∀ (m : List (String × Nat)) (k : String),
      lookupCount (ks.foldl bumpCount m) k = lookupCount m k + ks.count k := by
  induction ks with
  | nil => simp
  | cons a tl ih =>
    intro m k
    rw [List.foldl_cons, ih]
    by_cases hk : k = a
    · subst hk
      rw [lookupCount_bump_self]
      simp [List.count_cons]
      omega
    · rw [lookupCount_bump_other m hk]
      simp [List.count_cons, hk]

theorem nodup_keys_foldl (ks : List String) :
    ∀ (m : List (String × Nat)), (m.map Prod.fst).Nodup →
      ((ks.foldl bumpCount m).map Prod.fst).Nodup := by
  induction ks with
  | nil => exact fun m h => by simpa using h
  | cons a tl ih =>
    intro m hm
    rw [List.foldl_cons]
    exact ih _ (nodup_keys_bumpCount a hm)

theorem keys_foldl_subset (ks : List String) :
    ∀ (m : List (String × Nat)),
      ((ks.foldl bumpCount m).map Prod.fst) ⊆ m.map Prod.fst ++ ks := by
  induction ks with
  | nil => simp
  | cons a tl ih =>
    intro m x hx
    have h1 := ih (bumpCount m a) hx
    rw [List.mem_append] at h1
    rcases h1 with h1 | h1
    · rw [keys_bumpCount] at h1
      by_cases hk : hasKey m a
      · rw [if_pos hk] at h1
        simp [h1]
      · rw [if_neg hk] at h1
        rw [List.mem_append] at h1
        rcases h1 with h1 | h1
        · simp [h1]
        · simp at h1
          simp [h1]
    · simp [h1]

/-- Every entry of the frequency map of a key stream carries a key from the
stream together with its exact multiplicity in the stream. -/
theorem mem_countFold {ks : List String} {p : String × Nat}
    (hp : p ∈ countFold ks) : p.1 ∈ ks ∧ p.2 = ks.count p.1 := by
  have hnd : ((countFold ks).map Prod.fst).Nodup := nodup_keys_foldl ks [] (by simp)
  have hkey : p.1 ∈ ks := by
    have h1 := keys_foldl_subset ks [] (List.mem_map_of_mem Prod.fst hp)
    simpa using h1
  have hc : p.2 = lookupCount (countFold ks) p.1 := mem_entry_eq_lookup hnd hp
  rw [hc, countFold, lookupCount_foldl]
  exact ⟨hkey, by simp [lookupCount, List.find?]⟩

/-! Stable descending sort by a numeric field. -/

def insertDescBy {α : Type} (f : α → Nat) (x : α) : List α → List α
  | [] => [x]
  | y :: ys => if f y ≤ f x then x :: y :: ys else y :: insertDescBy f x ys

def sortDescBy {α : Type} (f : α → Nat) : List α → List α
  | [] => []
  | x :: xs => insertDescBy f x (sortDescBy f xs)

theorem mem_insertDescBy {α : Type} (f : α → Nat) (x : α) (l : List α) (a : α) :
    a ∈ insertDescBy f x l ↔ a = x ∨ a ∈ l := by
  induction l with
  | nil => simp [insertDescBy]
  | cons y ys ih =>
    simp only [insertDescBy]
    split
    · simp
    · simp [ih]
      tauto

theorem mem_sortDescBy {α : Type} (f : α → Nat) (l : List α) (a : α) :
    a ∈ sortDescBy f l ↔ a ∈ l := by
  induction l with
  | nil => simp [sortDescBy]
  | cons x xs ih => simp [sortDescBy, mem_insertDescBy, ih]

theorem pairwise_insertDescBy {α : Type} (f : α → Nat) (x : α) {l : List α}
    (h : l.Pairwise (fun a b => f b ≤ f a)) :
    (insertDescBy f x l).Pairwise (fun a b => f b ≤ f a) := by
  induction l with
  | nil => simp [insertDescBy]
  | cons y ys ih =>
    rw [List.pairwise_cons] at h
    simp only [insertDescBy]
    split
    · rename_i hyx
      rw [List.pairwise_cons]
      refine ⟨?_, List.pairwise_cons.mpr h⟩
      intro a ha
      rcases List.mem_cons.mp ha with rfl | ha'
      · exact hyx
      · exact le_trans (h.1 a ha') hyx
    · rename_i hyx
      rw [List.pairwise_cons]
      refine ⟨?_, ih h.2⟩
      intro a ha
      rcases (mem_insertDescBy f x ys a).mp ha with rfl | ha'
      · omega
      · exact h.1 a ha'

theorem pairwise_sortDescBy {α : Type} (f : α → Nat) (l : List α) :
    (sortDescBy f l).Pairwise (fun a b => f b ≤ f a) := by
  induction l with
  | nil => simp [sortDescBy]
  | cons x xs ih => exact pairwise_insertDescBy f x ih

/-! ## `getCommitPatterns` (`index.js` lines 155-192): keyword/phrase mining -/

/-- The fixed stop-word list of the keyword ranking. -/
def stopWords : List String := ["this", "that", "with", "from", "when", "were", "been"]

/-- `word.length > 3` (the word filter applied at insertion time). -/
def isLongWord (w : String) : Bool := 3 < w.length

/-- `phrase.length > 5` (the phrase filter applied at insertion time). -/
def isLongPhrase (ph : String) : Bool := 5 < ph.length

/-- `msg.toLowerCase().split(/\s+/)`: the whitespace-split tokens of the
lower-cased subject. -/
def wordTokens (msg : String) : List String := wsTokens (jsToLower msg)

/-- `msg.toLowerCase().replace(/\s+/g, ' ').trim()`: the lower-cased,
whitespace-normalised whole subject. -/
def phraseOf (msg : String) : String := normalizeWs (jsToLower msg)

/-- The result of `getCommitPatterns`. -/
structure PatternsSummary where
  commonWords : List (String × Nat)
  commonPhrases : List (String × Nat)
  deriving DecidableEq, Repr

/-- `getCommitPatterns` over the list of commit subjects: count tokens of
length > 3 and whole normalised subjects of length > 5 in insertion-ordered
maps, then filter (stop words for words, count > 1 for phrases), sort
descending by count (stable) and truncate (words to 20, phrases to 15). -/
def getCommitPatterns (msgs : List String) : PatternsSummary :=
  { commonWords :=
      (sortDescBy (fun p => p.2)
        ((msgs.foldl (fun m msg =>
            (wordTokens msg).foldl
              (fun m w => if isLongWord w then bumpCount m w else m) m) []).filter
          (fun p => p.1 ∉ stopWords))).take 20
    commonPhrases :=
      (sortDescBy (fun p => p.2)
        ((msgs.foldl (fun m msg =>
            if isLongPhrase (phraseOf msg) then bumpCount m (phraseOf msg) else m) []).filter
          (fun p => 1 < p.2))).take 15 }

/-- The stream of counted word occurrences: for each subject, its long tokens
in order. -/
def wordOccs (msgs : List String) : List String :=
  (msgs.map (fun msg => (wordTokens msg).filter isLongWord)).flatten

/-- The stream of counted phrase occurrences: the normalised subjects of
length > 5, in subject order. -/
def phraseOccs (msgs : List String) : List String :=
  (msgs.map phraseOf).filter isLongPhrase

theorem foldl_bump_filter (P : String → Bool) (ws : List String) :
    ∀ m, ws.foldl (fun m w => if P w then bumpCount m w else m) m
      = (ws.filter P).foldl bumpCount m := by
  induction ws with
  | nil => intro m; rfl
  | cons w tl ih =>
    intro m
    cases hw : P w <;> simp [List.filter_cons, hw, ih]

theorem foldl_bump_nested (keysOf : String → List String) (msgs : List String) :
    ∀ m, msgs.foldl (fun m msg => (keysOf msg).foldl bumpCount m) m
      = ((msgs.map keysOf).flatten).foldl bumpCount m := by
  induction msgs with
  | nil => intro m; rfl
  | cons msg tl ih =>
    intro m
    simp [List.foldl_append, ih]

theorem foldl_bump_map_filter (phr : String → String) (P : String → Bool)
    (msgs : List String) :
    ∀ m, msgs.foldl (fun m msg => if P (phr msg) then bumpCount m (phr msg) else m) m
      = ((msgs.map phr).filter P).foldl bumpCount m := by
  induction msgs with
  | nil => intro m; rfl
  | cons msg tl ih =>
    intro m
    cases hm : P (phr msg) <;> simp [List.filter_cons, hm, ih]

theorem commonWords_eq (msgs : List String) :
    (getCommitPatterns msgs).commonWords =
      (sortDescBy (fun p => p.2)
        ((countFold (wordOccs msgs)).filter (fun p => p.1 ∉ stopWords))).take 20 := by
  simp only [getCommitPatterns, foldl_bump_filter, foldl_bump_nested, countFold, wordOccs]

theorem commonPhrases_eq (msgs : List String) :
    (getCommitPatterns msgs).commonPhrases =
      (sortDescBy (fun p => p.2)
        ((countFold (phraseOccs msgs)).filter (fun p => 1 < p.2))).take 15 := by
  simp only [getCommitPatterns, foldl_bump_map_filter, countFold, phraseOccs]

/-! ### Claim C8 -/

/-- C8 (amended): the word ranking contains only whitespace-split tokens of
the lower-cased subjects, of length > 3 and outside the stop-word set, each
paired with its exact occurrence frequency, sorted descending by frequency
and truncated to the top 20; the phrase ranking contains only whole
lower-cased whitespace-normalised subjects (the code lower-cases phrases as
well as words) of length > 5 occurring more than once, with exact
frequencies, sorted descending and truncated to the top 15. -/
theorem commit_patterns_rankings (msgs : List String) :
    ((getCommitPatterns msgs).commonWords.length ≤ 20
      ∧ ((getCommitPatterns msgs).commonWords).Pairwise (fun a b => b.2 ≤ a.2)
      ∧ ∀ p ∈ (getCommitPatterns msgs).commonWords,
          3 < p.1.length ∧ p.1 ∉ stopWords
          ∧ (∃ m ∈ msgs, p.1 ∈ wordTokens m)
          ∧ p.2 = (wordOccs msgs).count p.1)
  ∧ ((getCommitPatterns msgs).commonPhrases.length ≤ 15
      ∧ ((getCommitPatterns msgs).commonPhrases).Pairwise (fun a b => b.2 ≤ a.2)
      ∧ ∀ p ∈ (getCommitPatterns msgs).commonPhrases,
          5 < p.1.length
          ∧ (∃ m ∈ msgs, p.1 = phraseOf m)
          ∧ 1 < p.2 ∧ p.2 = (phraseOccs msgs).count p.1) := by
  constructor
  · rw [commonWords_eq]
    refine ⟨List.length_take_le 20 _, ?_, ?_⟩
    · exact (pairwise_sortDescBy _ _).sublist (List.take_sublist 20 _)
    · intro p hp
      have hp1 : p ∈ sortDescBy (fun p => p.2)
          ((countFold (wordOccs msgs)).filter (fun p => p.1 ∉ stopWords)) :=
        (List.take_sublist 20 _).subset hp
      have hp2 := (mem_sortDescBy _ _ p).mp hp1
      rw [List.mem_filter] at hp2
      obtain ⟨hmem, hstop⟩ := hp2
      obtain ⟨hkey, hcount⟩ := mem_countFold hmem
      rw [wordOccs, List.mem_flatten] at hkey
      obtain ⟨lst, hlst, hplst⟩ := hkey
      rw [List.mem_map] at hlst
      obtain ⟨msg, hmsg, rfl⟩ := hlst
      rw [List.mem_filter] at hplst
      have hlong : 3 < p.1.length := by
        have := hplst.2
        simpa [isLongWord] using this
      exact ⟨hlong, by simpa using hstop, ⟨msg, hmsg, hplst.1⟩, hcount⟩
  · rw [commonPhrases_eq]
    refine ⟨List.length_take_le 15 _, ?_, ?_⟩
    · exact (pairwise_sortDescBy _ _).sublist (List.take_sublist 15 _)
    · intro p hp
      have hp1 : p ∈ sortDescBy (fun p => p.2)
          ((countFold (phraseOccs msgs)).filter (fun p => 1 < p.2)) :=
        (List.take_sublist 15 _).subset hp
      have hp2 := (mem_sortDescBy _ _ p).mp hp1
      rw [List.mem_filter] at hp2
      obtain ⟨hmem, hrep⟩ := hp2
      obtain ⟨hkey, hcount⟩ := mem_countFold hmem
      rw [phraseOccs, List.mem_filter] at hkey
      obtain ⟨hmapmem, hlen⟩ := hkey
      rw [List.mem_map] at hmapmem
      obtain ⟨msg, hmsg, hphr⟩ := hmapmem
      refine ⟨by simpa [isLongPhrase] using hlen, ⟨msg, hmsg, hphr.symm⟩, ?_, hcount⟩
      simpa using hrep

/-- Witness for C8: a concrete subject list on which the word ranking obeys
the bound. -/
theorem commit_patterns_rankings_witness :
    (getCommitPatterns ["fix: parser bug", "fix: parser bug"]).commonWords.length ≤ 20 :=
  (commit_patterns_rankings ["fix: parser bug", "fix: parser bug"]).1.1

def capitalMsgs : List String := ["Fix Bug Now", "Fix  Bug Now"]

/-- C8 counterexample: the phrase ranking of two capitalised subjects contains
`"fix bug now"`, which is the lower-cased normalisation but not the
whitespace-normalisation of any input subject: contrary to the claim, phrases
are lower-cased, not merely whitespace-normalised. -/
theorem phrase_ranking_lowercases_subjects :
    (getCommitPatterns capitalMsgs).commonPhrases = [("fix bug now", 2)]
  ∧ (∀ m ∈ capitalMsgs, normalizeWs m ≠ "fix bug now") := by
  constructor
  · decide
  · decide

/-! ## `author-patterns.js`: per-author statistics and validation

`getAuthorStats` parses `%an|%ae|%ad|%s` lines; each parsed line is a
`LogRec`, with `hour` again carrying `new Date(date).getHours()`.  The
insertion-ordered author map is an association list; `has`/`set`/`get`-mutate
on a JS `Map` is the first-occurrence update `updateAuthor`.  The source also
accumulates a day-of-week array (`commitDays`) and finally renders
`avgMessageLength` via `toFixed(1)`; no verified claim depends on those
fields and they are omitted from the model. -/

structure LogRec where
  name : String
  email : String
  date : String
  hour : Option Nat
  subject : String
  deriving DecidableEq, Repr

/-- The per-author accumulator of `getAuthorStats`. -/
structure AuthorData where
  email : String
  commits : Nat
  firstCommit : String
  lastCommit : String
  commitHours : List (Option Nat)
  patterns : Patterns
  totalMessageLength : Nat
  deriving DecidableEq, Repr

/-- The entry created on first sight of an author
(`authors.set(name, {...})`). -/
def freshAuthor (r : LogRec) : AuthorData :=
  { email := r.email, commits := 0, firstCommit := r.date, lastCommit := r.date,
    commitHours := [], patterns := zeroPatterns, totalMessageLength := 0 }

/-- The mutations applied to the author entry for one log line: bump the
commit count, push the hour, add the subject length, update first/last commit
by JS string comparison of the dates, classify the subject. -/
def foldAuthorLine (r : LogRec) (a : AuthorData) : AuthorData :=
  { a with
    commits := a.commits + 1
    commitHours := a.commitHours ++ [r.hour]
    totalMessageLength := a.totalMessageLength + r.subject.length
    firstCommit := if jsStrLt r.date a.firstCommit then r.date else a.firstCommit
    lastCommit := if jsStrLt a.lastCommit r.date then r.date else a.lastCommit
    patterns := bumpPattern a.patterns r.subject }

/-- Insert-or-update for one log line on the insertion-ordered author map. -/
def updateAuthor (r : LogRec) : List (String × AuthorData) → List (String × AuthorData)
  | [] => [(r.name, foldAuthorLine r (freshAuthor r))]
  | p :: rest =>
    if p.1 = r.name then (p.1, foldAuthorLine r p.2) :: rest
    else p :: updateAuthor r rest

/-- `getAuthorStats` over the parsed log lines (`Object.fromEntries` /
`Object.entries` preserve the insertion order of the non-numeric name
keys). -/
def getAuthorStats (lines : List LogRec) : List (String × AuthorData) :=
  lines.foldl (fun m r => updateAuthor r m) []

def hasAuthor (m : List (String × AuthorData)) (k : String) : Bool :=
  m.any (fun p => p.1 = k)

theorem keys_updateAuthor (r : LogRec) (m : List (String × AuthorData)) :
    (updateAuthor r m).map Prod.fst =
      if hasAuthor m r.name then m.map Prod.fst else m.map Prod.fst ++ [r.name] := by
  induction m with
  | nil => simp [updateAuthor, hasAuthor]
  | cons p rest ih =>
    by_cases hp : p.1 = r.name
    · simp [updateAuthor, hp, hasAuthor]
    · simp only [updateAuthor, if_neg hp, List.map_cons, ih, hasAuthor, List.any_cons]
      by_cases hr : hasAuthor rest r.name
      · simp [hasAuthor] at hr
        simp [hp, hr]
      · simp [hasAuthor] at hr
        simp [hp, hr]

theorem mem_keys_updateAuthor_self (r : LogRec) (m : List (String × AuthorData)) :
    r.name ∈ (updateAuthor r m).map Prod.fst := by
  rw [keys_updateAuthor]
  by_cases h : hasAuthor m r.name
  · rw [if_pos h]
    simp only [hasAuthor, List.any_eq_true, decide_eq_true_eq] at h
    obtain ⟨p, hp, hpk⟩ := h
    exact hpk ▸ List.mem_map_of_mem Prod.fst hp
  · rw [if_neg h]
    simp

theorem keys_updateAuthor_mono (r : LogRec) (m : List (String × AuthorData)) :
    m.map Prod.fst ⊆ (updateAuthor r m).map Prod.fst := by
  rw [keys_updateAuthor]
  by_cases h : hasAuthor m r.name
  · rw [if_pos h]
    exact fun x hx => hx
  · rw [if_neg h]
    exact fun x hx => List.mem_append_left _ hx

theorem keys_foldl_update_mono (lines : List LogRec) :
    ∀ (m : List (String × AuthorData)),
      m.map Prod.fst ⊆ (lines.foldl (fun m r => updateAuthor r m) m).map Prod.fst := by
  induction lines with
  | nil => exact fun m x hx => hx
  | cons r tl ih =>
    intro m x hx
    rw [List.foldl_cons]
    exact ih (updateAuthor r m) (keys_updateAuthor_mono r m hx)

theorem keys_foldl_update_subset (lines : List LogRec) :
    ∀ (m : List (String × AuthorData)),
      ((lines.foldl (fun m r => updateAuthor r m) m).map Prod.fst)
        ⊆ m.map Prod.fst ++ lines.map LogRec.name := by
  induction lines with
  | nil => simp
  | cons r tl ih =>
    intro m x hx
    have h1 := ih (updateAuthor r m) hx
    rw [List.mem_append] at h1
    rcases h1 with h1 | h1
    · rw [keys_updateAuthor] at h1
      by_cases hk : hasAuthor m r.name
      · rw [if_pos hk] at h1
        simp [h1]
      · rw [if_neg hk] at h1
        rw [List.mem_append] at h1
        rcases h1 with h1 | h1
        · simp [h1]
        · simp at h1
          simp [h1]
    · simp [h1]

theorem name_mem_keys_foldl_update (lines : List LogRec) :
    ∀ (m : List (String × AuthorData)) (r : LogRec), r ∈ lines →
      r.name ∈ ((lines.foldl (fun m r => updateAuthor r m) m).map Prod.fst) := by
  induction lines with
  | nil => intro m r hr; simp at hr
  | cons a tl ih =>
    intro m r hr
    rw [List.foldl_cons]
    rcases List.mem_cons.mp hr with rfl | hr'
    · exact keys_foldl_update_mono tl (updateAuthor r m) (mem_keys_updateAuthor_self r m)
    · exact ih (updateAuthor a m) r hr'

/-- The known-author names of a history are exactly the keys of
`getAuthorStats`. -/
theorem keys_getAuthorStats (lines : List LogRec) (n : String) :
    n ∈ (getAuthorStats lines).map Prod.fst ↔ ∃ r ∈ lines, r.name = n := by
  constructor
  · intro h
    have h1 := keys_foldl_update_subset lines [] h
    simp only [List.map_nil, List.nil_append, List.mem_map] at h1
    exact h1
  · intro ⟨r, hr, hn⟩
    exact hn ▸ name_mem_keys_foldl_update lines [] r hr

/-- The user-facing validation error of `displayAuthorAnalysis`: the printed
message, the listed author names (`authors.slice(0, 10)`) and the
`process.exit` code. -/
structure AuthorError where
  message : String
  availableAuthors : List String
  exitCode : Nat
  deriving DecidableEq, Repr

/-- The analysis rendered for a found author (the working-hours, day, file
and collaborator tables are rendering of this entry plus further subprocess
queries, outside the verified claims). -/
structure AuthorReport where
  name : String
  data : AuthorData
  deriving DecidableEq, Repr

/-- `displayAuthorAnalysis` (`author-patterns.js` lines 193-304): sort the
known authors descending by commit count (stable), look up the requested
name; if absent, print a validation error listing the first 10 known authors
and exit with code 1 producing no report; otherwise render the analysis. -/
def displayAuthorAnalysis (lines : List LogRec) (authorName : String) :
    Except AuthorError AuthorReport :=
  match (sortDescBy (fun p => p.2.commits) (getAuthorStats lines)).find?
      (fun p => p.1 = authorName) with
  | none =>
    .error
      { message := "Error: Author \x22" ++ authorName ++ "\x22 not found in git history"
        availableAuthors :=
          ((sortDescBy (fun p => p.2.commits) (getAuthorStats lines)).take 10).map Prod.fst
        exitCode := 1 }
  | some target => .ok { name := target.1, data := target.2 }

def errAuthorsOf : Except AuthorError AuthorReport → List String
  | .error e => e.availableAuthors
  | .ok _ => []

/-! ### Claim C9 -/

/-- C9 (amended): requesting per-author analysis for a name absent from the
history yields the validation error listing the first 10 known authors in
descending order of commit count (only the top 10 are listed, not all known
authors), with exit code 1 (non-zero) and no report value for the query. -/
theorem unknown_author_error (lines : List LogRec) (authorName : String)
    (h : ∀ r ∈ lines, r.name ≠ authorName) :
    displayAuthorAnalysis lines authorName =
      .error
        { message := "Error: Author \x22" ++ authorName ++ "\x22 not found in git history"
          availableAuthors :=
            ((sortDescBy (fun p => p.2.commits) (getAuthorStats lines)).take 10).map Prod.fst
          exitCode := 1 }
  ∧ (∀ rep, displayAuthorAnalysis lines authorName ≠ .ok rep)
  ∧ (1 : Nat) ≠ 0
  ∧ (sortDescBy (fun p => p.2.commits) (getAuthorStats lines)).Pairwise
      (fun a b => b.2.commits ≤ a.2.commits)
  ∧ (∀ n ∈ ((sortDescBy (fun p => p.2.commits) (getAuthorStats lines)).take 10).map
        Prod.fst, ∃ r ∈ lines, r.name = n) := by
  have hfind : (sortDescBy (fun p => p.2.commits) (getAuthorStats lines)).find?
      (fun p => p.1 = authorName) = none := by
    rw [List.find?_eq_none]
    intro p hp
    have hmem := (mem_sortDescBy _ _ p).mp hp
    have hkey : p.1 ∈ (getAuthorStats lines).map Prod.fst :=
      List.mem_map_of_mem Prod.fst hmem
    obtain ⟨r, hr, hn⟩ := (keys_getAuthorStats lines p.1).mp hkey
    simpa using fun hcontra => h r hr (hn.trans hcontra)
  have herr : displayAuthorAnalysis lines authorName =
      .error
        { message := "Error: Author \x22" ++ authorName ++ "\x22 not found in git history"
          availableAuthors :=
            ((sortDescBy (fun p => p.2.commits) (getAuthorStats lines)).take 10).map Prod.fst
          exitCode := 1 } := by
    unfold displayAuthorAnalysis
    rw [hfind]
  refine ⟨herr, ?_, by decide, pairwise_sortDescBy _ _, ?_⟩
  · intro rep hcontra
    rw [herr] at hcontra
    exact Except.noConfusion hcontra
  · intro n hn
    rw [List.mem_map] at hn
    obtain ⟨p, hp, rfl⟩ := hn
    have hp1 := (List.take_sublist 10 _).subset hp
    have hmem := (mem_sortDescBy _ _ p).mp hp1
    exact (keys_getAuthorStats lines p.1).mp (List.mem_map_of_mem Prod.fst hmem)

def scenarioLines : List LogRec :=
  [ { name := "Alice", email := "alice@x", date := "2024-01-01 09:00:00 +0000",
      hour := some 9, subject := "fix: a" }
  , { name := "Alice", email := "alice@x", date := "2024-01-02 10:00:00 +0000",
      hour := some 10, subject := "feat: b" }
  , { name := "Carol", email := "carol@x", date := "2024-01-03 11:00:00 +0000",
      hour := some 11, subject := "fix: c" } ]

/-- Witness for C9 at the spec's scenario 5: requesting `"Bob"` when only
`"Alice"` (2 commits) and `"Carol"` (1 commit) exist produces the validation
error listing `["Alice", "Carol"]` with exit code 1. -/
theorem unknown_author_error_witness :
    displayAuthorAnalysis scenarioLines "Bob" =
      .error
        { message := "Error: Author \x22Bob\x22 not found in git history"
          availableAuthors := ["Alice", "Carol"]
          exitCode := 1 } := by
  have h := (unknown_author_error scenarioLines "Bob" (by decide)).1
  rw [h]
  simp only [Except.error.injEq]
  decide

def elevenLines : List LogRec :=
  (List.range 11).map (fun i =>
    { name := "A" ++ toString i, email := "x@x", date := "2024-01-01 09:00:00 +0000",
      hour := some 9, subject := "fix: a" })

/-- C9 counterexample: with 11 known authors the error message lists only the
first 10 of them (`authors.slice(0, 10)`); author `"A10"` is known but not
listed, so the claim that the error lists the known authors fails. -/
theorem author_listing_caps_at_ten :
    (errAuthorsOf (displayAuthorAnalysis elevenLines "Bob")).length = 10
  ∧ "A10" ∈ (getAuthorStats elevenLines).map Prod.fst
  ∧ "A10" ∉ errAuthorsOf (displayAuthorAnalysis elevenLines "Bob") := by
  refine ⟨by decide, by decide, by decide⟩

/-! ## `generateReport` (`index.js` lines 309-330): the serialized artifact

The report value written to `tribal-knowledge-report.json` by
`JSON.stringify(reportData, null, 2)`.  The wall-clock reading
`new Date().toISOString()` is the `now` argument; the repository name
(`path.basename(process.cwd())`) is the `repoName` argument.  The rendered
percentage strings are modelled by their one-decimal numeric values.  All
key orders in the serialized object are fixed by construction, so two equal
report values serialize to identical bytes, and two report values differing
in a field serialize to different bytes. -/

/-- One entry of `getMostChangedFiles`. -/
structure FileCount where
  count : Nat
  file : String
  deriving DecidableEq, Repr

/-- The result of `getBranchInsights`. -/
structure Branches where
  totalBranches : Nat
  mergedBranches : Nat
  deriving DecidableEq, Repr

structure ReportMeta where
  repository : String
  generatedAt : String
  commitsAnalyzed : Nat
  deriving DecidableEq, Repr

structure ReportAuthor where
  author : String
  email : String
  commits : Nat
  percentage : ℚ
  deriving DecidableEq, Repr

structure ReportData where
  metadata : ReportMeta
  authors : List ReportAuthor
  commitPatterns : Patterns
  timeDistribution : TimeDist
  mostChangedFiles : List FileCount
  commonKeywords : List (String × Nat)
  commonPhrases : List (String × Nat)
  branchInsights : Branches
  deriving DecidableEq, Repr

/-- The `reportData` object assembled by `generateReport`: top-10 authors
sorted descending by commit count (stable), with percentage
`(commits / total) × 100` at one decimal, plus the histograms, rankings and
branch counts unchanged. -/
def buildReportData (repoName now : String) (stats : Stats)
    (files : List FileCount) (patterns : PatternsSummary) (branches : Branches) :
    ReportData :=
  { metadata :=
      { repository := repoName, generatedAt := now, commitsAnalyzed := stats.total }
    authors :=
      ((sortDescBy (fun p => p.2.commits) stats.authors).take 10).map (fun p =>
        { author := p.1, email := p.2.email, commits := p.2.commits
          percentage := toFixed1 (((p.2.commits : ℚ) / (stats.total : ℚ)) * 100) })
    commitPatterns := stats.patterns
    timeDistribution := stats.timeDistribution
    mostChangedFiles := files
    commonKeywords := patterns.commonWords
    commonPhrases := patterns.commonPhrases
    branchInsights := branches }

/-- The report with the generation timestamp blanked. -/
def stripGeneratedAt (r : ReportData) : ReportData :=
  { r with metadata := { r.metadata with generatedAt := "" } }

/-! ### Claim C2 -/

/-- C2 (amended): for fixed aggregation inputs the assembled report is a
deterministic pure function of those inputs in every field except
`metadata.generatedAt`, which is the wall-clock reading at generation time:
two runs over the same immutable input agree on the whole artifact modulo
that timestamp field, and are byte-identical only when the clock readings
coincide. -/
theorem report_deterministic_modulo_timestamp (repoName t1 t2 : String)
    (stats : Stats) (files : List FileCount) (patterns : PatternsSummary)
    (branches : Branches) :
    stripGeneratedAt (buildReportData repoName t1 stats files patterns branches)
      = stripGeneratedAt (buildReportData repoName t2 stats files patterns branches)
  ∧ (buildReportData repoName t1 stats files patterns branches).metadata.generatedAt = t1
  ∧ buildReportData repoName t1 stats files patterns branches
      = buildReportData repoName t1 stats files patterns branches :=
  ⟨rfl, rfl, rfl⟩

/-- Witness for C2 at concrete inputs. -/
theorem report_deterministic_modulo_timestamp_witness :
    stripGeneratedAt (buildReportData "repo" "t1" (getCommitStats demoCommits) []
        { commonWords := [], commonPhrases := [] } { totalBranches := 3, mergedBranches := 2 })
      = stripGeneratedAt (buildReportData "repo" "t2" (getCommitStats demoCommits) []
        { commonWords := [], commonPhrases := [] } { totalBranches := 3, mergedBranches := 2 }) :=
  (report_deterministic_modulo_timestamp "repo" "t1" "t2" (getCommitStats demoCommits) []
    { commonWords := [], commonPhrases := [] } { totalBranches := 3, mergedBranches := 2 }).1

/-- C2 counterexample: two runs over the same immutable input at different
wall-clock instants produce different report artifacts — the
`metadata.generatedAt` field embeds `new Date().toISOString()`, so the
serialized artifacts are not byte-identical. -/
theorem report_differs_across_clock_readings :
    (buildReportData "repo" "2024-01-01T00:00:00.000Z" (getCommitStats demoCommits) []
        { commonWords := [], commonPhrases := [] }
        { totalBranches := 3, mergedBranches := 2 }).metadata.generatedAt
      = "2024-01-01T00:00:00.000Z"
  ∧ (buildReportData "repo" "2024-01-01T00:00:01.000Z" (getCommitStats demoCommits) []
        { commonWords := [], commonPhrases := [] }
        { totalBranches := 3, mergedBranches := 2 }).metadata.generatedAt
      = "2024-01-01T00:00:01.000Z"
  ∧ buildReportData "repo" "2024-01-01T00:00:00.000Z" (getCommitStats demoCommits) []
        { commonWords := [], commonPhrases := [] }
        { totalBranches := 3, mergedBranches := 2 }
      ≠ buildReportData "repo" "2024-01-01T00:00:01.000Z" (getCommitStats demoCommits) []
        { commonWords := [], commonPhrases := [] }
        { totalBranches := 3, mergedBranches := 2 } := by
  refine ⟨rfl, rfl, ?_⟩
  intro hcontra
  have h : ("2024-01-01T00:00:00.000Z" : String) = "2024-01-01T00:00:01.000Z" :=
    congrArg (fun r => r.metadata.generatedAt) hcontra
  exact absurd h (by decide)

end TribalKnowledge
